import Mathlib

/-
Verification of the FIRRTL `InjectDUTHierarchy` transform
(lib/Dialect/FIRRTL/Transforms/InjectDUTHierarchy.cpp).

The development shallowly embeds the data the pass manipulates: annotations
(dictionaries with the fields the pass reads), hierarchical path operations
(`hw::HierPathOp`, a symbol plus a namepath of inner-ref / flat-ref
locators), modules with ports and bodies, and the circuit.  The pass itself
is embedded as pure functions mirroring `runOnOperation` and its helper
`addHierarchy`, with fallible steps (assertions, unchecked casts,
out-of-bounds accesses) returning `Option`.
-/

set_option autoImplicit false

namespace InjectDUT

/-- Annotation class of the injection directive (AnnotationDetails.h). -/
def injectDUTHierarchyAnnoClass : String :=
  "sifive.enterprise.firrtl.InjectDUTHierarchyAnnotation"

/-- Annotation class of the DUT marker, `MarkDUTAnnotation` (AnnotationDetails.h). -/
def dutAnnoClass : String := "sifive.enterprise.firrtl.MarkDUTAnnotation"

/-- An annotation: a dictionary attribute.  Only the fields the pass reads are
modelled: the class, the `name` string member, the `moveDut` bool member and
the `circt.nonlocal` symbol reference member; an absent member is `none`. -/
structure Annotation where
  annoClass : String
  name : Option String := none
  moveDut : Option Bool := none
  nonlocal : Option String := none
deriving DecidableEq

/-- The errors `runOnOperation` can report via `emitError`. -/
inductive PassError where
  | malformedDirective
  | duplicateDirective
  | missingDUT
deriving DecidableEq

/-- One element of a `hw::HierPathOp` namepath: either an
`hw::InnerRefAttr` (an instance or component `sym` inside module `mod`) or a
`FlatSymbolRefAttr` (module `mod` itself). -/
inductive PathElem where
  | innerRef (mod sym : String)
  | flatRef (mod : String)
deriving DecidableEq

/-- `HierPathOp::modPart`: the module symbol of a namepath element. -/
def PathElem.modPart : PathElem → String
  | .innerRef m _ => m
  | .flatRef m => m

/-- Effect, on one locator, of renaming module `o` to `n`: the locator is the
same locator, displayed under the owner module's new name. -/
def PathElem.renameMod (o n : String) : PathElem → PathElem
  | .innerRef m s => .innerRef (if m = o then n else m) s
  | .flatRef m => .flatRef (if m = o then n else m)

/-- A `hw::HierPathOp`: a unique symbol and a namepath. -/
structure HierPathOp where
  symName : String
  namepath : List PathElem
deriving DecidableEq

/-- `HierPathOp::root`: module of the first namepath element. -/
def HierPathOp.root (p : HierPathOp) : Option String :=
  p.namepath.head?.map PathElem.modPart

/-- `HierPathOp::leafMod`: module of the last namepath element. -/
def HierPathOp.leafMod (p : HierPathOp) : Option String :=
  p.namepath.getLast?.map PathElem.modPart

/-- `HierPathOp::isComponent`: the last namepath element is an inner ref. -/
def HierPathOp.isComponent (p : HierPathOp) : Bool :=
  match p.namepath.getLast? with
  | some (.innerRef _ _) => true
  | _ => false

/-- `HierPathOp::isModule`: the last namepath element is a flat module ref. -/
def HierPathOp.isModule (p : HierPathOp) : Bool :=
  match p.namepath.getLast? with
  | some (.flatRef _) => true
  | _ => false

/-- `HierPathOp::ref`: the leaf inner symbol, for component paths. -/
def HierPathOp.ref (p : HierPathOp) : Option String :=
  match p.namepath.getLast? with
  | some (.innerRef _ s) => some s
  | _ => none

/-- Modelled from the spec: `Namespace::newName` (circt Namespace.h, not under
src/) returns a name derived from `hint` that is not already in `used`: the
hint itself when free, otherwise the hint with the first free numeric suffix.
Returns `none` when the bounded suffix search fails (never on real inputs). -/
def newName (used : List String) (hint : String) : Option String :=
  if used.contains hint then
    (List.range (used.length + 1)).findSome? fun i =>
      let c := hint ++ "_" ++ toString i
      if used.contains c then none else some c
  else some hint

/-- Port direction. -/
inductive Direction where
  | In
  | Out
deriving DecidableEq

/-- A module port: name, direction, optional inner symbol, annotations. -/
structure Port where
  name : String
  direction : Direction
  sym : Option String := none
  annos : List Annotation := []
deriving DecidableEq

/-- An SSA value as used by the shell wiring: a block argument of the module
(port `i`) or result `i` of the instance with inner symbol `instSym`. -/
inductive Value where
  | blockArg (i : Nat)
  | instResult (instSym : String) (i : Nat)
deriving DecidableEq

/-- An operation in a module body.  The pass creates one `InstanceOp` and
connect operations in the shell; all pre-existing body contents of the DUT
stay in the wrapper and are opaque to the pass (`other`). -/
inductive BodyElem where
  | inst (innerSym moduleName : String)
  | connect (dest src : Value)
  | other (tag : Nat)
deriving DecidableEq

/-- An `FModuleOp`: name, visibility, ports, annotations, body. -/
structure FModule where
  name : String
  isPublic : Bool
  ports : List Port
  annos : List Annotation
  body : List BodyElem
deriving DecidableEq

/-- A `CircuitOp`: circuit-level annotations, modules in order, hierarchical
path operations. -/
structure Circuit where
  annos : List Annotation
  modules : List FModule
  paths : List HierPathOp
deriving DecidableEq

/-- State of the directive-scanning loop (lines 101-127): the accepted
wrapper name, the `moveDut` flag, and the errors emitted so far in order. -/
structure ScanState where
  wrapperName : Option String
  moveDut : Bool
  errors : List PassError
deriving DecidableEq

/-- The directive-scanning loop (lines 101-127): for each circuit annotation
of the injection class, a missing `name` member emits `MalformedDirective`;
a second directive with a `name` member after one was accepted emits
`DuplicateDirective`; otherwise the directive is accepted and `moveDut` is
read from its `moveDut` member when present. -/
def scanAnnos (st : ScanState) : List Annotation → ScanState
  | [] => st
  | a :: rest =>
    if a.annoClass = injectDUTHierarchyAnnoClass then
      match a.name with
      | none =>
        scanAnnos { st with errors := st.errors ++ [PassError.malformedDirective] } rest
      | some nm =>
        match st.wrapperName with
        | some _ =>
          scanAnnos { st with errors := st.errors ++ [PassError.duplicateDirective] } rest
        | none =>
          scanAnnos { wrapperName := some nm, moveDut := a.moveDut.getD st.moveDut,
                      errors := st.errors } rest
    else scanAnnos st rest

/-- A directive of the injection class carrying its required `name` field. -/
def isValidDirective (a : Annotation) : Bool :=
  (a.annoClass == injectDUTHierarchyAnnoClass) && a.name.isSome

/-- The error list the scanning loop produces, as a standalone recursion on
the annotation list (`haveName` records whether a directive was accepted). -/
def scanErrors (haveName : Bool) : List Annotation → List PassError
  | [] => []
  | a :: rest =>
    if a.annoClass = injectDUTHierarchyAnnoClass then
      match a.name with
      | none => PassError.malformedDirective :: scanErrors haveName rest
      | some _ =>
        if haveName then PassError.duplicateDirective :: scanErrors true rest
        else scanErrors true rest
    else scanErrors haveName rest

/-- A module carrying the `MarkDUTAnnotation`. -/
def isDutModule (m : FModule) : Bool :=
  m.annos.any fun a => a.annoClass == dutAnnoClass

/-- Modelled from the spec: the external DUT locator (`InstanceInfo::getDut`,
an analysis outside src/): the module marked DUT, or `none` when absent. -/
def findDut (c : Circuit) : Option Nat :=
  c.modules.findIdx? isDutModule

/-- Rewrite of the leading dut locator in `addHierarchy` (lines 68-73): an
inner ref keeps its symbol but is now owned by the wrapper's module name; a
flat module ref becomes a flat ref of the wrapper's module name. -/
def retargetElem (wrapName : String) : PathElem → PathElem
  | .innerRef _ s => .innerRef wrapName s
  | .flatRef _ => .flatRef wrapName

/-- `addHierarchy` (lines 55-79): copy elements until the first whose module
part is the DUT's name, push an inner-ref locator for the wrapper instance
(inner symbol `instSym`) owned by the DUT (shell) module, push the old dut
locator retargeted to the wrapper's new module name, and keep the rest.
`none` models the out-of-bounds access when no element names the DUT. -/
def addHierarchy (dutName instSym wrapName : String) : List PathElem → Option (List PathElem)
  | [] => none
  | e :: rest =>
    if e.modPart = dutName then
      some (PathElem.innerRef dutName instSym :: retargetElem wrapName e :: rest)
    else
      (addHierarchy dutName instSym wrapName rest).map fun np => e :: np

/-- The root-case rewrite (lines 269-277): requires the namepath to be longer
than one element (the assertion) and its head to be an inner ref (the
unchecked cast); the head is rebuilt owned by the wrapper's name, keeping its
inner symbol, and the tail is kept.  `none` models assertion/cast failure. -/
def rewriteRootCase (wrapName : String) : List PathElem → Option (List PathElem)
  | PathElem.innerRef _ s :: rest =>
    if rest.isEmpty then none
    else some (PathElem.innerRef wrapName s :: rest)
  | _ => none

/-- The per-path body of the NLA update loop (lines 263-313).  `dutName` is
the shell's (old DUT's) name, `wrapName` the wrapper's new name, `instSym`
the wrapper instance's inner symbol, `dutPortSyms` the shell's port symbols,
`dutPaths` the path symbols referenced by `circt.nonlocal` members of
annotations on the shell or its ports, and `used` the circuit symbol
namespace.  Returns the updated path, the optional clone, and the updated
namespace. -/
def processNLA (dutName wrapName instSym : String) (dutPortSyms dutPaths : List String)
    (used : List String) (nla : HierPathOp) :
    Option (HierPathOp × Option HierPathOp × List String) :=
  if nla.root = some dutName then
    match rewriteRootCase wrapName nla.namepath with
    | some np => some ({ nla with namepath := np }, none, used)
    | none => none
  else
    if nla.leafMod = some dutName ∧ nla.isComponent = true ∧
        nla.ref.any (fun r => dutPortSyms.contains r) = true then
      some (nla, none, used)
    else
      let cloneStep : Option (Option HierPathOp × List String) :=
        if nla.leafMod = some dutName ∧ nla.isModule = true ∧
            dutPaths.contains nla.symName = true then
          match newName used nla.symName with
          | some s => some (some { symName := s, namepath := nla.namepath }, s :: used)
          | none => none
        else some (none, used)
      match cloneStep, addHierarchy dutName instSym wrapName nla.namepath with
      | some (cl, used2), some np => some ({ nla with namepath := np }, cl, used2)
      | _, _ => none

/-- `NLATable::lookup`: a path passes through the module iff some namepath
element has it as its module part. -/
def pathTouches (dutName : String) (p : HierPathOp) : Bool :=
  p.namepath.any fun e => e.modPart == dutName

/-- The NLA update loop over all paths (lines 263-313): paths not touching
the DUT are untouched; for the others `processNLA` runs, a clone is inserted
immediately before its original, and the original-symbol to clone-symbol
mapping (`dutRenames`) is collected. -/
def processPaths (dutName wrapName instSym : String) (dutPortSyms dutPaths : List String) :
    List HierPathOp → List String →
    Option (List HierPathOp × List (String × String) × List String)
  | [], used => some ([], [], used)
  | p :: rest, used =>
    if pathTouches dutName p then
      match processNLA dutName wrapName instSym dutPortSyms dutPaths used p with
      | none => none
      | some (p2, cl, used2) =>
        match processPaths dutName wrapName instSym dutPortSyms dutPaths rest used2 with
        | none => none
        | some (ps, rens, used3) =>
          some (cl.toList ++ p2 :: ps,
                (match cl with
                 | some c => [(p.symName, c.symName)]
                 | none => []) ++ rens,
                used3)
    else
      (processPaths dutName wrapName instSym dutPortSyms dutPaths rest used).map
        fun r => (p :: r.1, r.2.1, r.2.2)

/-- Stripping of wrapper module annotations (lines 194-198):
`AnnotationSet::removeAnnotations` removes every annotation for which the
predicate holds; the predicate holds for a `MarkDUTAnnotation` iff not in
`moveDut` mode, and for every other annotation unconditionally. -/
def stripWrapperAnnos (moveDut : Bool) (annos : List Annotation) : List Annotation :=
  annos.filter fun a => !(if a.annoClass == dutAnnoClass then !moveDut else true)

/-- Stripping of wrapper port annotations (lines 192-193): the predicate is
constantly true, so every port annotation is removed. -/
def stripPortAnnos (annos : List Annotation) : List Annotation :=
  annos.filter fun _ => !true

/-- Stripping of the DUT marker from the shell in `moveDut` mode
(lines 202-203). -/
def stripShellAnnos (moveDut : Bool) (annos : List Annotation) : List Annotation :=
  if moveDut then annos.filter fun a => !(a.annoClass == dutAnnoClass) else annos

/-- The pass-through wiring loop (lines 215-221), starting at port index `i`:
for each port, `lhs` is the shell's block argument and `rhs` the instance
result; for an input-direction port the two are swapped; the connect drives
the first component from the second.  The single connect per port models
`emitConnect` (FIRRTLUtils, outside src/) at ground type, per the spec:
one connection per port of the shell. -/
def wireShell (instSym : String) : Nat → List Port → List (Value × Value)
  | _, [] => []
  | i, p :: rest =>
    (let lhs := Value.blockArg i
     let rhs := Value.instResult instSym i
     if p.direction = Direction.In then (rhs, lhs) else (lhs, rhs)) ::
    wireShell instSym (i + 1) rest

/-- Lookup in the collected `dutRenames` association list. -/
def lookupRename (renames : List (String × String)) (s : String) : Option String :=
  (renames.find? fun pr => pr.1 == s).map fun pr => pr.2

/-- `removeAndUpdateNLAs` (lines 316-327) as a partial map: an annotation
whose `circt.nonlocal` member is a key of `dutRenames` is removed and
collected with the member rewritten to the clone's symbol; any other
annotation is kept. -/
def removeAndUpdateNLAs (renames : List (String × String)) (a : Annotation) :
    Option Annotation :=
  match a.nonlocal with
  | none => none
  | some s =>
    match lookupRename renames s with
    | none => none
    | some t => some { a with nonlocal := some t }

/-- Effect of lines 329-340 on one annotation list: the matching annotations
are removed and the rewritten copies appended. -/
def retargetAnnoList (renames : List (String × String)) (annos : List Annotation) :
    List Annotation :=
  annos.filter (fun a => (removeAndUpdateNLAs renames a).isNone) ++
  annos.filterMap (removeAndUpdateNLAs renames)

/-- Outcome of one run of the pass: `failure` (`signalPassFailure`) with the
reported errors and the circuit as left behind, `noChanges`
(`markAllAnalysesPreserved`, success without structural change), or
`success` with the transformed circuit. -/
inductive PassOutcome where
  | failure (errors : List PassError) (c : Circuit)
  | noChanges (c : Circuit)
  | success (c : Circuit)
deriving DecidableEq

/-- The structural transformation (lines 147-346) once a wrapper name is
accepted and the DUT module is found at index `dutIdx`: split the DUT into a
renamed wrapper and a fresh shell, strip annotations, instantiate and wire
the wrapper inside the shell, collect `dutPortSyms` and `dutPaths`, rewrite
every hierarchical path touching the DUT, and retarget annotations on the
shell and its ports through `dutRenames`.  `none` models an assertion or
cast failure inside the path loop. -/
def transform (c : Circuit) (wname : String) (moveDut : Bool) (dutIdx : Nat) :
    Option Circuit := do
  let d ← c.modules[dutIdx]?
  let used0 := c.modules.map (fun m => m.name) ++ c.paths.map (fun p => p.symName)
  let wrapNewName ← newName used0 wname
  let used1 := wrapNewName :: used0
  let shellVis := if moveDut then false else d.isPublic
  let wrapVis := if moveDut then d.isPublic else false
  let wrapper : FModule :=
    { name := wrapNewName, isPublic := wrapVis,
      ports := d.ports.map fun p => { p with annos := stripPortAnnos p.annos },
      annos := stripWrapperAnnos moveDut d.annos,
      body := d.body }
  let shellAnnos := stripShellAnnos moveDut d.annos
  let instSym ← newName (d.ports.filterMap fun p => p.sym) wrapNewName
  let shellBody := BodyElem.inst instSym wrapNewName ::
    (wireShell instSym 0 d.ports).map fun pr => BodyElem.connect pr.1 pr.2
  let dutPortSyms := d.ports.filterMap fun p => p.sym
  let dutPaths := (shellAnnos.filterMap fun a => a.nonlocal) ++
    d.ports.flatMap fun p => p.annos.filterMap fun a => a.nonlocal
  let (newPaths, renames, _) ←
    processPaths d.name wrapNewName instSym dutPortSyms dutPaths c.paths used1
  let shell : FModule :=
    { name := d.name, isPublic := shellVis,
      ports := d.ports.map fun p => { p with annos := retargetAnnoList renames p.annos },
      annos := retargetAnnoList renames shellAnnos,
      body := shellBody }
  some { annos := c.annos,
         modules := c.modules.take dutIdx ++ [wrapper, shell] ++ c.modules.drop (dutIdx + 1),
         paths := newPaths }

/-- `runOnOperation` (lines 81-347): scan the directives; any error aborts
the run with the circuit untouched; with no accepted directive the pass is a
no-op that preserves all analyses; with a directive but no DUT module the
run aborts with `MissingDUT`; otherwise the structural transformation runs. -/
def runPass (c : Circuit) : PassOutcome :=
  let st := scanAnnos ⟨none, false, []⟩ c.annos
  if st.errors = [] then
    match st.wrapperName with
    | none => PassOutcome.noChanges c
    | some wname =>
      match findDut c with
      | none => PassOutcome.failure [PassError.missingDUT] c
      | some dutIdx =>
        match transform c wname st.moveDut dutIdx with
        | some c2 => PassOutcome.success c2
        | none => PassOutcome.failure [] c
  else PassOutcome.failure st.errors c

/-! ### Helper lemmas -/

theorem newName_not_mem {used : List String} {hint s : String}
    (h : newName used hint = some s) : s ∉ used := by
  unfold newName at h
  by_cases hc : used.contains hint = true
  · rw [if_pos hc] at h
    obtain ⟨i, hi, hsome⟩ := List.exists_of_findSome?_eq_some h
    simp only at hsome
    by_cases hc2 : used.contains (hint ++ "_" ++ toString i) = true
    · rw [if_pos hc2] at hsome
      exact Option.noConfusion hsome
    · rw [if_neg hc2] at hsome
      cases hsome
      simpa using hc2
  · rw [if_neg hc] at h
    cases h
    simpa using hc

theorem scanAnnos_skip : ∀ (annos : List Annotation) (st : ScanState),
    (∀ a ∈ annos, a.annoClass ≠ injectDUTHierarchyAnnoClass) →
    scanAnnos st annos = st
  | [], st, _ => rfl
  | a :: rest, st, h => by
    have ha : a.annoClass ≠ injectDUTHierarchyAnnoClass := h a (by simp)
    rw [scanAnnos, if_neg ha]
    exact scanAnnos_skip rest st fun x hx => h x (by simp [hx])

theorem scanAnnos_errors : ∀ (annos : List Annotation) (st : ScanState),
    (scanAnnos st annos).errors = st.errors ++ scanErrors st.wrapperName.isSome annos
  | [], st => by simp [scanAnnos, scanErrors]
  | a :: rest, st => by
    by_cases hcl : a.annoClass = injectDUTHierarchyAnnoClass
    · cases hn : a.name with
      | none =>
        rw [scanAnnos, if_pos hcl, hn, scanAnnos_errors rest, scanErrors, if_pos hcl, hn]
        simp
      | some nm =>
        cases hw : st.wrapperName with
        | some w =>
          rw [scanAnnos, if_pos hcl, hn, hw, scanAnnos_errors rest,
              scanErrors, if_pos hcl, hn]
          simp [hw]
        | none =>
          rw [scanAnnos, if_pos hcl, hn, hw, scanAnnos_errors rest,
              scanErrors, if_pos hcl, hn]
          simp [hw]
    · rw [scanAnnos, if_neg hcl, scanAnnos_errors rest, scanErrors, if_neg hcl]

theorem scanAnnos_fixed : ∀ (annos : List Annotation) (st : ScanState) (w : String),
    st.wrapperName = some w →
    (scanAnnos st annos).wrapperName = some w ∧ (scanAnnos st annos).moveDut = st.moveDut
  | [], st, w, hw => ⟨hw, rfl⟩
  | a :: rest, st, w, hw => by
    by_cases hcl : a.annoClass = injectDUTHierarchyAnnoClass
    · cases hn : a.name with
      | none =>
        rw [scanAnnos, if_pos hcl, hn]
        exact scanAnnos_fixed rest _ w hw
      | some nm =>
        rw [scanAnnos, if_pos hcl, hn, hw]
        exact scanAnnos_fixed rest _ w rfl
    · rw [scanAnnos, if_neg hcl]
      exact scanAnnos_fixed rest st w hw

theorem scanAnnos_first : ∀ (annos : List Annotation) (st : ScanState),
    st.wrapperName = none →
    ((scanAnnos st annos).wrapperName =
        (annos.find? isValidDirective).bind (fun a => a.name) ∧
      (scanAnnos st annos).moveDut =
        (match annos.find? isValidDirective with
         | some a => a.moveDut.getD st.moveDut
         | none => st.moveDut))
  | [], st, hw => by simp [scanAnnos, hw]
  | a :: rest, st, hw => by
    by_cases hcl : a.annoClass = injectDUTHierarchyAnnoClass
    · cases hn : a.name with
      | none =>
        have hv : isValidDirective a = false := by
          simp [isValidDirective, hn]
        rw [scanAnnos, if_pos hcl, hn, List.find?_cons_of_neg _ (by simp [hv])]
        exact scanAnnos_first rest _ hw
      | some nm =>
        have hv : isValidDirective a = true := by
          simp [isValidDirective, hcl, hn]
        rw [scanAnnos, if_pos hcl, hn, hw, List.find?_cons_of_pos _ hv]
        have h2 := scanAnnos_fixed rest
            ⟨some nm, a.moveDut.getD st.moveDut, st.errors⟩ nm rfl
        refine ⟨?_, ?_⟩
        · rw [h2.1]
          simp [hn]
        · rw [h2.2]
    · have hv : isValidDirective a = false := by
        simp [isValidDirective]
        intro h
        exact absurd h hcl
      rw [scanAnnos, if_neg hcl, List.find?_cons_of_neg _ (by simp [hv])]
      exact scanAnnos_first rest st hw

theorem dup_mem_scanErrors : ∀ (annos : List Annotation) (b : Bool),
    PassError.duplicateDirective ∈ scanErrors b annos ↔
      (if b then 1 else 2) ≤ annos.countP isValidDirective
  | [], b => by cases b <;> simp [scanErrors]
  | a :: rest, b => by
    by_cases hcl : a.annoClass = injectDUTHierarchyAnnoClass
    · cases hn : a.name with
      | none =>
        have hv : isValidDirective a = false := by simp [isValidDirective, hn]
        rw [scanErrors, if_pos hcl, hn]
        cases b <;>
          simp [dup_mem_scanErrors rest, List.countP_cons, hv]
      | some nm =>
        have hv : isValidDirective a = true := by simp [isValidDirective, hcl, hn]
        rw [scanErrors, if_pos hcl, hn]
        cases b with
        | true =>
          rw [if_pos rfl]
          simp [List.countP_cons, hv]
        | false =>
          rw [if_neg (by simp)]
          rw [dup_mem_scanErrors rest true]
          simp [List.countP_cons, hv]
    · have hv : isValidDirective a = false := by
        simp [isValidDirective]
        intro h
        exact absurd h hcl
      rw [scanErrors, if_neg hcl]
      cases b <;> simp [dup_mem_scanErrors rest, List.countP_cons, hv]

theorem mal_mem_scanErrors : ∀ (annos : List Annotation) (b : Bool),
    PassError.malformedDirective ∈ scanErrors b annos ↔
      ∃ a ∈ annos, a.annoClass = injectDUTHierarchyAnnoClass ∧ a.name = none
  | [], b => by simp [scanErrors]
  | a :: rest, b => by
    by_cases hcl : a.annoClass = injectDUTHierarchyAnnoClass
    · cases hn : a.name with
      | none =>
        rw [scanErrors, if_pos hcl, hn]
        simp [hcl, hn]
      | some nm =>
        rw [scanErrors, if_pos hcl, hn]
        cases b <;> simp [mal_mem_scanErrors rest, hcl, hn]
    · rw [scanErrors, if_neg hcl]
      simp [mal_mem_scanErrors rest, hcl]

theorem scanErrors_eq_nil : ∀ (annos : List Annotation) (b : Bool),
    (∀ a ∈ annos, a.annoClass = injectDUTHierarchyAnnoClass → a.name.isSome) →
    annos.countP isValidDirective + (if b then 1 else 0) ≤ 1 →
    scanErrors b annos = []
  | [], b, _, _ => rfl
  | a :: rest, b, hall, hcnt => by
    by_cases hcl : a.annoClass = injectDUTHierarchyAnnoClass
    · cases hn : a.name with
      | none =>
        have := hall a (by simp) hcl
        rw [hn] at this
        simp at this
      | some nm =>
        have hv : isValidDirective a = true := by simp [isValidDirective, hcl, hn]
        rw [scanErrors, if_pos hcl, hn]
        have hc : (a :: rest).countP isValidDirective =
            rest.countP isValidDirective + 1 := by
          simp [List.countP_cons, hv]
        cases b with
        | true =>
          exfalso
          rw [hc] at hcnt
          simp at hcnt
        | false =>
          rw [if_neg (by simp)]
          apply scanErrors_eq_nil rest true (fun x hx => hall x (by simp [hx]))
          rw [hc] at hcnt
          have h3 : (if (true : Bool) then (1 : Nat) else 0) = 1 := rfl
          have h4 : (if (false : Bool) then (1 : Nat) else 0) = 0 := rfl
          rw [h3]
          rw [h4] at hcnt
          omega
    · have hv : isValidDirective a = false := by
        simp [isValidDirective]
        intro h
        exact absurd h hcl
      rw [scanErrors, if_neg hcl]
      apply scanErrors_eq_nil rest b (fun x hx => hall x (by simp [hx]))
      have h2 : (a :: rest).countP isValidDirective = rest.countP isValidDirective := by
        simp [List.countP_cons, hv]
      omega

theorem renameMod_eq_self {dn wn : String} {x : PathElem} (h : x.modPart ≠ dn) :
    PathElem.renameMod dn wn x = x := by
  cases x with
  | innerRef m s =>
    simp [PathElem.modPart] at h
    simp [PathElem.renameMod, h]
  | flatRef m =>
    simp [PathElem.modPart] at h
    simp [PathElem.renameMod, h]

theorem renameMod_map_eq_self {dn wn : String} : ∀ {l : List PathElem},
    (∀ x ∈ l, x.modPart ≠ dn) → l.map (PathElem.renameMod dn wn) = l
  | [], _ => rfl
  | x :: xs, h => by
    rw [List.map_cons, renameMod_eq_self (h x (by simp)),
        renameMod_map_eq_self fun y hy => h y (by simp [hy])]

theorem isComponent_eq_false_of_isModule {p : HierPathOp} (h : p.isModule = true) :
    p.isComponent = false := by
  unfold HierPathOp.isModule at h
  unfold HierPathOp.isComponent
  cases hl : p.namepath.getLast? with
  | none => rfl
  | some e =>
    cases e with
    | innerRef m s => rw [hl] at h; exact absurd h (by simp)
    | flatRef m => rfl

theorem wireShell_length (instSym : String) : ∀ (i : Nat) (ports : List Port),
    (wireShell instSym i ports).length = ports.length
  | _, [] => rfl
  | i, p :: rest => by
    rw [wireShell, List.length_cons, List.length_cons, wireShell_length instSym (i + 1) rest]

theorem wireShell_getElem (instSym : String) : ∀ (ports : List Port) (p : Port) (i j : Nat),
    ports[j]? = some p →
    (wireShell instSym i ports)[j]? =
      some (if p.direction = Direction.In
            then (Value.instResult instSym (i + j), Value.blockArg (i + j))
            else (Value.blockArg (i + j), Value.instResult instSym (i + j)))
  | [], p, i, j, h => by simp at h
  | q :: rest, p, i, 0, h => by
    simp only [List.getElem?_cons_zero, Option.some.injEq] at h
    subst h
    simp [wireShell]
  | q :: rest, p, i, j + 1, h => by
    simp only [List.getElem?_cons_succ] at h
    have ih := wireShell_getElem instSym rest p (i + 1) j h
    rw [wireShell, List.getElem?_cons_succ, ih]
    have harith : i + 1 + j = i + (j + 1) := by omega
    rw [harith]

/-! ### Claim theorems -/

/-- Claim C1: for every port index `i` of the new shell, the pass-through
wiring connects the shell's port `i` with result `i` of the wrapper
instance: for an input-direction port the connect drives the instance
result (destination) from the shell's block argument (source), and for an
output-direction port the connect drives the shell's block argument
(destination) from the instance result (source); one connect per port. -/
theorem c1_passthrough_wiring (ports : List Port) (p : Port) (instSym : String) (i : Nat)
    (h : ports[i]? = some p) :
    (wireShell instSym 0 ports)[i]? =
      some (if p.direction = Direction.In
            then (Value.instResult instSym i, Value.blockArg i)
            else (Value.blockArg i, Value.instResult instSym i)) ∧
    (wireShell instSym 0 ports).length = ports.length := by
  constructor
  · have := wireShell_getElem instSym ports p 0 i h
    simpa using this
  · exact wireShell_length instSym 0 ports

/-- Witness for C1 at a concrete two-port shell (input `a`, output `b`). -/
theorem c1_passthrough_wiring_witness :
    (wireShell "w" 0 [{ name := "a", direction := Direction.In },
                      { name := "b", direction := Direction.Out }])[0]? =
      some (Value.instResult "w" 0, Value.blockArg 0) ∧
    (wireShell "w" 0 [{ name := "a", direction := Direction.In },
                      { name := "b", direction := Direction.Out }]).length = 2 := by
  have h := c1_passthrough_wiring
    [{ name := "a", direction := Direction.In },
     { name := "b", direction := Direction.Out }]
    { name := "a", direction := Direction.In } "w" 0 (by decide)
  simpa using h

/-- Counterexample to claim C2 as stated: on the path
`[Top::dut, DUT]` the rewrite does not merely insert one new locator after
the locator naming the old DUT with everything else preserved unchanged:
the module locator `DUT` itself is rewritten to the wrapper's new name
`Wrapper`, so it does not survive into the result. -/
theorem c2_counterexample :
    addHierarchy "DUT" "wrapperinst" "Wrapper"
        [PathElem.innerRef "Top" "dut", PathElem.flatRef "DUT"] =
      some [PathElem.innerRef "Top" "dut", PathElem.innerRef "DUT" "wrapperinst",
            PathElem.flatRef "Wrapper"] ∧
    PathElem.flatRef "DUT" ∉
      [PathElem.innerRef "Top" "dut", PathElem.innerRef "DUT" "wrapperinst",
       PathElem.flatRef "Wrapper"] := by
  decide

/-- Claim C2 as amended: for a path whose locators before the first one
naming the old DUT do not name it, `addHierarchy` keeps the prefix
unchanged, inserts the instance-edge locator for the wrapper instance
(owned by the new shell, which carries the old DUT's name) at the position
of the locator naming the old DUT, follows it with that locator retargeted
to the wrapper's new module name (keeping its inner-symbol part and its
flat-vs-instance kind), and preserves every later locator unchanged; the
path grows by exactly one locator. -/
theorem c2_extend_amended (dutName instSym wrapName : String)
    (pre post : List PathElem) (e : PathElem)
    (hpre : ∀ x ∈ pre, x.modPart ≠ dutName) (he : e.modPart = dutName) :
    addHierarchy dutName instSym wrapName (pre ++ e :: post) =
      some (pre ++ PathElem.innerRef dutName instSym :: retargetElem wrapName e :: post) ∧
    (pre ++ PathElem.innerRef dutName instSym :: retargetElem wrapName e :: post).length =
      (pre ++ e :: post).length + 1 := by
  constructor
  · induction pre with
    | nil => simp [addHierarchy, he]
    | cons x xs ih =>
      have hx : x.modPart ≠ dutName := hpre x (by simp)
      rw [List.cons_append, addHierarchy, if_neg hx,
          ih fun y hy => hpre y (by simp [hy])]
      rfl
  · simp [List.length_append]
    omega

/-- Witness for the amended C2 on a path passing through the DUT into a
deeper leaf. -/
theorem c2_extend_amended_witness :
    addHierarchy "DUT" "wrapperinst" "Wrapper"
        ([PathElem.innerRef "Top" "dut"] ++
          PathElem.innerRef "DUT" "sub" :: [PathElem.flatRef "Leaf"]) =
      some ([PathElem.innerRef "Top" "dut"] ++
        PathElem.innerRef "DUT" "wrapperinst" ::
          retargetElem "Wrapper" (PathElem.innerRef "DUT" "sub") :: [PathElem.flatRef "Leaf"]) ∧
    ([PathElem.innerRef "Top" "dut"] ++
      PathElem.innerRef "DUT" "wrapperinst" ::
        retargetElem "Wrapper" (PathElem.innerRef "DUT" "sub") :: [PathElem.flatRef "Leaf"]).length =
      ([PathElem.innerRef "Top" "dut"] ++
        PathElem.innerRef "DUT" "sub" :: [PathElem.flatRef "Leaf"]).length + 1 :=
  c2_extend_amended "DUT" "wrapperinst" "Wrapper"
    [PathElem.innerRef "Top" "dut"] [PathElem.flatRef "Leaf"]
    (PathElem.innerRef "DUT" "sub") (by decide) (by decide)

/-- Claim C4: a path whose root locator names the module that used to be
the DUT is handled by the root case: the result is exactly the image of the
original locator sequence under the module rename (old DUT name to the
wrapper's new name) — same length, same symbol, no clone, no new locator,
no namespace allocation. -/
theorem c4_root_case (dutName wrapName instSym sym s2 : String)
    (dutPortSyms dutPaths used : List String) (rest : List PathElem)
    (hne : rest ≠ []) (hrest : ∀ x ∈ rest, x.modPart ≠ dutName) :
    processNLA dutName wrapName instSym dutPortSyms dutPaths used
        ⟨sym, PathElem.innerRef dutName s2 :: rest⟩ =
      some (⟨sym, (PathElem.innerRef dutName s2 :: rest).map
              (PathElem.renameMod dutName wrapName)⟩, none, used) ∧
    ((PathElem.innerRef dutName s2 :: rest).map
        (PathElem.renameMod dutName wrapName)).length =
      (PathElem.innerRef dutName s2 :: rest).length := by
  have hroot : (HierPathOp.mk sym (PathElem.innerRef dutName s2 :: rest)).root =
      some dutName := by
    simp [HierPathOp.root, PathElem.modPart]
  have hmap : (PathElem.innerRef dutName s2 :: rest).map
      (PathElem.renameMod dutName wrapName) = PathElem.innerRef wrapName s2 :: rest := by
    rw [List.map_cons, renameMod_map_eq_self hrest]
    simp [PathElem.renameMod]
  refine ⟨?_, by simp⟩
  unfold processNLA
  rw [if_pos hroot, hmap]
  cases rest with
  | nil => exact absurd rfl hne
  | cons y ys => simp [rewriteRootCase]

/-- Witness for C4 on the path `[DUT::sub, Leaf]` rooted at the old DUT. -/
theorem c4_root_case_witness :
    processNLA "DUT" "Wrapper" "wrapperinst" [] [] []
        ⟨"nla", PathElem.innerRef "DUT" "sub" :: [PathElem.flatRef "Leaf"]⟩ =
      some (⟨"nla", (PathElem.innerRef "DUT" "sub" :: [PathElem.flatRef "Leaf"]).map
              (PathElem.renameMod "DUT" "Wrapper")⟩, none, []) ∧
    ((PathElem.innerRef "DUT" "sub" :: [PathElem.flatRef "Leaf"]).map
        (PathElem.renameMod "DUT" "Wrapper")).length =
      (PathElem.innerRef "DUT" "sub" :: [PathElem.flatRef "Leaf"]).length :=
  c4_root_case "DUT" "Wrapper" "wrapperinst" "nla" "sub" [] [] []
    [PathElem.flatRef "Leaf"] (by decide) (by decide)

/-- Claim C5: a path (not rooted at the DUT) whose leaf locator is a
component locator naming a port symbol of the DUT is left completely
unmodified: same symbol, same locator sequence, same length; no clone is
made and the namespace is untouched. -/
theorem c5_port_leaf_untouched (dutName wrapName instSym portSym sym : String)
    (dutPortSyms dutPaths used : List String) (np : List PathElem)
    (hroot : (HierPathOp.mk sym np).root ≠ some dutName)
    (hleaf : np.getLast? = some (PathElem.innerRef dutName portSym))
    (hport : dutPortSyms.contains portSym = true) :
    processNLA dutName wrapName instSym dutPortSyms dutPaths used ⟨sym, np⟩ =
      some (⟨sym, np⟩, none, used) := by
  unfold processNLA
  rw [if_neg hroot]
  have h1 : (HierPathOp.mk sym np).leafMod = some dutName := by
    simp [HierPathOp.leafMod, hleaf, PathElem.modPart]
  have h2 : (HierPathOp.mk sym np).isComponent = true := by
    simp [HierPathOp.isComponent, hleaf]
  have h3 : ((HierPathOp.mk sym np).ref.any fun r => dutPortSyms.contains r) = true := by
    simp [HierPathOp.ref, hleaf, Option.any]
    simpa using hport
  rw [if_pos ⟨h1, h2, h3⟩]

/-- Witness for C5 on the path `[Top::dut, DUT::p0]` with `p0` a DUT port
symbol. -/
theorem c5_port_leaf_untouched_witness :
    processNLA "DUT" "Wrapper" "wrapperinst" ["p0"] [] []
        ⟨"nla", [PathElem.innerRef "Top" "dut", PathElem.innerRef "DUT" "p0"]⟩ =
      some (⟨"nla", [PathElem.innerRef "Top" "dut", PathElem.innerRef "DUT" "p0"]⟩,
        none, []) :=
  c5_port_leaf_untouched "DUT" "Wrapper" "wrapperinst" "p0" "nla" ["p0"] [] []
    [PathElem.innerRef "Top" "dut", PathElem.innerRef "DUT" "p0"]
    (by decide) (by decide) (by decide)

/-- Claim C9: the root-case rewrite succeeds exactly on namepaths of length
greater than one whose first element is an inner-ref locator (the assertion
and the unchecked cast never fail under that precondition), and a
single-locator module path naming the DUT violates it. -/
theorem c9_root_assert (w : String) (p : List PathElem) :
    ((rewriteRootCase w p).isSome ↔
      1 < p.length ∧ ∃ m s, p.head? = some (PathElem.innerRef m s)) ∧
    rewriteRootCase w [PathElem.flatRef "DUT"] = none := by
  constructor
  · cases p with
    | nil => simp [rewriteRootCase]
    | cons e rest =>
      cases e with
      | innerRef m s =>
        cases rest with
        | nil => simp [rewriteRootCase]
        | cons y ys =>
          simp [rewriteRootCase]
      | flatRef m => simp [rewriteRootCase]
  · rfl

/-- Claim C3: for a module-leaf path ending at the DUT whose symbol is
referenced by metadata on the DUT or its ports (`dutPaths`), the pass
clones the path with a freshly allocated symbol and the pre-rewrite locator
sequence, still adds the extra hierarchy level to the original, rewrites
every matching annotation to reference the clone's symbol, and afterwards
that metadata references a symbol distinct from the rewritten original
path's symbol. -/
theorem c3_clone_isolation (dutName wrapName instSym orig cloneSym : String)
    (dutPortSyms dutPaths used : List String)
    (np np2 : List PathElem) (annos : List Annotation)
    (hroot : (HierPathOp.mk orig np).root ≠ some dutName)
    (hleaf : (HierPathOp.mk orig np).leafMod = some dutName)
    (hmod : (HierPathOp.mk orig np).isModule = true)
    (hshared : dutPaths.contains orig = true)
    (hfresh : newName used orig = some cloneSym)
    (hused : orig ∈ used)
    (hadd : addHierarchy dutName instSym wrapName np = some np2) :
    processNLA dutName wrapName instSym dutPortSyms dutPaths used ⟨orig, np⟩ =
      some (⟨orig, np2⟩, some ⟨cloneSym, np⟩, cloneSym :: used) ∧
    cloneSym ∉ used ∧
    cloneSym ≠ orig ∧
    (∀ a ∈ annos, a.nonlocal = some orig →
      { a with nonlocal := some cloneSym } ∈ retargetAnnoList [(orig, cloneSym)] annos) ∧
    (∀ a ∈ retargetAnnoList [(orig, cloneSym)] annos, a.nonlocal ≠ some orig) := by
  have hnm : cloneSym ∉ used := newName_not_mem hfresh
  have hne : cloneSym ≠ orig := fun h => hnm (h ▸ hused)
  have hcomp : (HierPathOp.mk orig np).isComponent = false :=
    isComponent_eq_false_of_isModule hmod
  refine ⟨?_, hnm, hne, ?_, ?_⟩
  · simp only [processNLA]
    rw [if_neg hroot]
    have hc2 : ¬((HierPathOp.mk orig np).leafMod = some dutName ∧
        (HierPathOp.mk orig np).isComponent = true ∧
        ((HierPathOp.mk orig np).ref.any fun r => dutPortSyms.contains r) = true) := by
      intro hcond
      rw [hcomp] at hcond
      exact absurd hcond.2.1 (by simp)
    rw [if_neg hc2, if_pos ⟨hleaf, hmod, hshared⟩]
    simp only [hfresh, hadd]
  · intro a ha hnl
    have hro : removeAndUpdateNLAs [(orig, cloneSym)] a =
        some { a with nonlocal := some cloneSym } := by
      simp [removeAndUpdateNLAs, hnl, lookupRename]
    refine List.mem_append.mpr (Or.inr ?_)
    rw [List.mem_filterMap]
    exact ⟨a, ha, hro⟩
  · intro a ha
    rcases List.mem_append.mp ha with hl | hr
    · have hkeep := (List.mem_filter.mp hl).2
      intro hnl
      have hro : removeAndUpdateNLAs [(orig, cloneSym)] a =
          some { a with nonlocal := some cloneSym } := by
        simp [removeAndUpdateNLAs, hnl, lookupRename]
      rw [hro] at hkeep
      simp at hkeep
    · rcases List.mem_filterMap.mp hr with ⟨b, hb, hfb⟩
      intro hnl
      unfold removeAndUpdateNLAs at hfb
      cases hbn : b.nonlocal with
      | none =>
        rw [hbn] at hfb
        exact Option.noConfusion hfb
      | some s =>
        rw [hbn] at hfb
        simp only [] at hfb
        cases hls : lookupRename [(orig, cloneSym)] s with
        | none =>
          rw [hls] at hfb
          exact Option.noConfusion hfb
        | some t =>
          rw [hls] at hfb
          simp only [] at hfb
          have ht : t = cloneSym := by
            rw [lookupRename] at hls
            by_cases he : (((orig, cloneSym) : String × String).1 == s) = true
            · have hfind : List.find? (fun pr => pr.1 == s) [(orig, cloneSym)] =
                  some (orig, cloneSym) := List.find?_cons_of_pos _ he
              rw [hfind] at hls
              simp at hls
              exact hls.symm
            · have he2 : (((orig, cloneSym) : String × String).1 == s) = false := by
                simpa using he
              have hfind : List.find? (fun pr => pr.1 == s) [(orig, cloneSym)] = none := by
                simp [List.find?, he2]
              rw [hfind] at hls
              simp at hls
          cases hfb
          rw [ht] at hnl
          simp at hnl
          exact hne hnl

/-- Witness for C3 on the path `[Top::dut, DUT]` whose symbol `nla` is
referenced by an annotation on the shell. -/
theorem c3_clone_isolation_witness :
    processNLA "DUT" "Wrapper" "wrapperinst" [] ["nla"] ["Top", "DUT", "nla"]
        ⟨"nla", [PathElem.innerRef "Top" "dut", PathElem.flatRef "DUT"]⟩ =
      some (⟨"nla", [PathElem.innerRef "Top" "dut",
                     PathElem.innerRef "DUT" "wrapperinst", PathElem.flatRef "Wrapper"]⟩,
        some ⟨"nla_0", [PathElem.innerRef "Top" "dut", PathElem.flatRef "DUT"]⟩,
        "nla_0" :: ["Top", "DUT", "nla"]) ∧
    "nla_0" ∉ ["Top", "DUT", "nla"] ∧
    "nla_0" ≠ "nla" ∧
    (∀ a ∈ [({ annoClass := "Foo", nonlocal := some "nla" } : Annotation)],
      a.nonlocal = some "nla" →
      { a with nonlocal := some "nla_0" } ∈ retargetAnnoList [("nla", "nla_0")]
        [({ annoClass := "Foo", nonlocal := some "nla" } : Annotation)]) ∧
    (∀ a ∈ retargetAnnoList [("nla", "nla_0")]
        [({ annoClass := "Foo", nonlocal := some "nla" } : Annotation)],
      a.nonlocal ≠ some "nla") :=
  c3_clone_isolation "DUT" "Wrapper" "wrapperinst" "nla" "nla_0" [] ["nla"]
    ["Top", "DUT", "nla"]
    [PathElem.innerRef "Top" "dut", PathElem.flatRef "DUT"]
    [PathElem.innerRef "Top" "dut", PathElem.innerRef "DUT" "wrapperinst",
     PathElem.flatRef "Wrapper"]
    [{ annoClass := "Foo", nonlocal := some "nla" }]
    (by decide) (by decide) (by decide) (by decide) (by decide) (by decide) (by decide)

/-- Claim C6: with zero injection directives the pass changes nothing: the
outcome carries the identical circuit (module list, paths and metadata),
reports success and marks all prior analyses preserved. -/
theorem c6_noop (c : Circuit)
    (h : ∀ a ∈ c.annos, a.annoClass ≠ injectDUTHierarchyAnnoClass) :
    runPass c = PassOutcome.noChanges c := by
  have hs : scanAnnos ⟨none, false, []⟩ c.annos = ⟨none, false, []⟩ :=
    scanAnnos_skip c.annos ⟨none, false, []⟩ h
  simp [runPass, hs]

/-- Witness for C6 on a circuit with one unrelated annotation. -/
theorem c6_noop_witness :
    runPass ⟨[{ annoClass := "other.Anno" }], [], []⟩ =
      PassOutcome.noChanges ⟨[{ annoClass := "other.Anno" }], [], []⟩ :=
  c6_noop ⟨[{ annoClass := "other.Anno" }], [], []⟩ (by decide)

/-- Claim C7: a malformed directive (missing `name`), duplicate directives,
or a single valid directive with no DUT module each abort the run with the
corresponding error and leave the design untouched: the failure outcome
carries the input circuit itself, so no module is created and no structural
change is applied. -/
theorem c7_errors_abort (c : Circuit) :
    ((∃ a ∈ c.annos, a.annoClass = injectDUTHierarchyAnnoClass ∧ a.name = none) →
      ∃ errs, runPass c = PassOutcome.failure errs c ∧
        PassError.malformedDirective ∈ errs) ∧
    (2 ≤ c.annos.countP isValidDirective →
      ∃ errs, runPass c = PassOutcome.failure errs c ∧
        PassError.duplicateDirective ∈ errs) ∧
    ((∀ a ∈ c.annos, a.annoClass = injectDUTHierarchyAnnoClass → a.name.isSome) →
      c.annos.countP isValidDirective = 1 →
      findDut c = none →
      runPass c = PassOutcome.failure [PassError.missingDUT] c) := by
  have herr : (scanAnnos ⟨none, false, []⟩ c.annos).errors = scanErrors false c.annos := by
    rw [scanAnnos_errors]
    simp
  refine ⟨?_, ?_, ?_⟩
  · intro ⟨a, ha, hcl, hn⟩
    have hmem : PassError.malformedDirective ∈
        (scanAnnos ⟨none, false, []⟩ c.annos).errors := by
      rw [herr, mal_mem_scanErrors]
      exact ⟨a, ha, hcl, hn⟩
    refine ⟨(scanAnnos ⟨none, false, []⟩ c.annos).errors, ?_, hmem⟩
    have hne : ¬((scanAnnos ⟨none, false, []⟩ c.annos).errors = []) := by
      intro h0
      rw [h0] at hmem
      exact absurd hmem (by simp)
    unfold runPass
    rw [if_neg hne]
  · intro hdup
    have hmem : PassError.duplicateDirective ∈
        (scanAnnos ⟨none, false, []⟩ c.annos).errors := by
      rw [herr, dup_mem_scanErrors]
      simpa using hdup
    refine ⟨(scanAnnos ⟨none, false, []⟩ c.annos).errors, ?_, hmem⟩
    have hne : ¬((scanAnnos ⟨none, false, []⟩ c.annos).errors = []) := by
      intro h0
      rw [h0] at hmem
      exact absurd hmem (by simp)
    unfold runPass
    rw [if_neg hne]
  · intro hall hcnt hdut
    have h0 : (scanAnnos ⟨none, false, []⟩ c.annos).errors = [] := by
      rw [herr]
      exact scanErrors_eq_nil c.annos false hall (by simp [hcnt])
    have hfind : ∃ a, c.annos.find? isValidDirective = some a := by
      rw [← Option.isSome_iff_exists, List.find?_isSome]
      have hpos : 0 < c.annos.countP isValidDirective := by omega
      rw [List.countP_pos_iff] at hpos
      exact hpos
    obtain ⟨a, hfa⟩ := hfind
    have hv : isValidDirective a = true := List.find?_some hfa
    have hw := (scanAnnos_first c.annos ⟨none, false, []⟩ rfl).1
    rw [hfa] at hw
    simp only [Option.some_bind] at hw
    simp [isValidDirective] at hv
    obtain ⟨nm, hnm⟩ := Option.isSome_iff_exists.mp hv.2
    rw [hnm] at hw
    unfold runPass
    rw [if_pos h0, hw, hdut]

/-- Witness for C7 on three concrete circuits: a directive without `name`,
two valid directives, and one valid directive with no DUT module. -/
theorem c7_errors_abort_witness :
    (∃ errs, runPass ⟨[{ annoClass := injectDUTHierarchyAnnoClass }], [], []⟩ =
        PassOutcome.failure errs
          ⟨[{ annoClass := injectDUTHierarchyAnnoClass }], [], []⟩ ∧
      PassError.malformedDirective ∈ errs) ∧
    (∃ errs, runPass ⟨[{ annoClass := injectDUTHierarchyAnnoClass, name := some "A" },
          { annoClass := injectDUTHierarchyAnnoClass, name := some "B" }], [], []⟩ =
        PassOutcome.failure errs
          ⟨[{ annoClass := injectDUTHierarchyAnnoClass, name := some "A" },
            { annoClass := injectDUTHierarchyAnnoClass, name := some "B" }], [], []⟩ ∧
      PassError.duplicateDirective ∈ errs) ∧
    runPass ⟨[{ annoClass := injectDUTHierarchyAnnoClass, name := some "W" }], [], []⟩ =
      PassOutcome.failure [PassError.missingDUT]
        ⟨[{ annoClass := injectDUTHierarchyAnnoClass, name := some "W" }], [], []⟩ :=
  ⟨(c7_errors_abort ⟨[{ annoClass := injectDUTHierarchyAnnoClass }], [], []⟩).1
      (by decide),
   (c7_errors_abort ⟨[{ annoClass := injectDUTHierarchyAnnoClass, name := some "A" },
        { annoClass := injectDUTHierarchyAnnoClass, name := some "B" }], [], []⟩).2.1
      (by decide),
   (c7_errors_abort ⟨[{ annoClass := injectDUTHierarchyAnnoClass, name := some "W" }],
        [], []⟩).2.2 (by decide) (by decide) (by decide)⟩

/-- Counterexample to claim C8 as stated: a module-level annotation of the
wrapper that is not the DUT marker is removed by the split (here with
`moveSemantics` false), though the claim says all module-level metadata
other than the DUT marker is left in place on the wrapper. -/
theorem c8_counterexample :
    stripWrapperAnnos false [{ annoClass := "circt.test" }] = [] ∧
    "circt.test" ≠ dutAnnoClass := by
  decide

/-- Claim C8 as amended: the split removes all port-level metadata of the
wrapper and all of its module-level metadata except that, when
`moveSemantics` is true, the DUT marker annotations are kept on the wrapper;
in that mode the DUT marker is removed from the new shell (kept only on the
wrapper), and otherwise the shell's annotations are untouched. -/
theorem c8_strip_amended (moveDut : Bool) (annos pannos : List Annotation) :
    stripWrapperAnnos moveDut annos =
      (if moveDut then annos.filter (fun a => a.annoClass == dutAnnoClass) else []) ∧
    stripPortAnnos pannos = [] ∧
    stripShellAnnos moveDut annos =
      (if moveDut then annos.filter (fun a => !(a.annoClass == dutAnnoClass))
       else annos) := by
  refine ⟨?_, ?_, rfl⟩
  · cases moveDut with
    | false => simp [stripWrapperAnnos]
    | true =>
      show stripWrapperAnnos true annos =
        annos.filter (fun a => a.annoClass == dutAnnoClass)
      unfold stripWrapperAnnos
      apply List.filter_congr
      intro a _
      by_cases hc : (a.annoClass == dutAnnoClass) = true
      · simp [hc]
      · simp [hc]
  · simp [stripPortAnnos]

/-- Claim C10: the duplicate-directive error occurs exactly when at least
two directives carry a valid `name` field (so a malformed first directive
followed by a well-formed one reports only `MalformedDirective`, yet still
aborts the run), and the `moveDut` flag is read only from the first
directive with a valid `name` field. -/
theorem c10_duplicate_accounting :
    (∀ annos : List Annotation,
      PassError.duplicateDirective ∈ (scanAnnos ⟨none, false, []⟩ annos).errors ↔
        2 ≤ annos.countP isValidDirective) ∧
    (∀ annos : List Annotation,
      (scanAnnos ⟨none, false, []⟩ annos).moveDut =
        (match annos.find? isValidDirective with
         | some a => a.moveDut.getD false
         | none => false)) ∧
    runPass ⟨[{ annoClass := injectDUTHierarchyAnnoClass },
              { annoClass := injectDUTHierarchyAnnoClass, name := some "W",
                moveDut := some true }], [], []⟩ =
      PassOutcome.failure [PassError.malformedDirective]
        ⟨[{ annoClass := injectDUTHierarchyAnnoClass },
          { annoClass := injectDUTHierarchyAnnoClass, name := some "W",
            moveDut := some true }], [], []⟩ := by
  refine ⟨?_, ?_, by decide⟩
  · intro annos
    rw [scanAnnos_errors]
    simp only [List.nil_append, Option.isSome_none]
    rw [dup_mem_scanErrors]
    simp
  · intro annos
    exact (scanAnnos_first annos ⟨none, false, []⟩ rfl).2

end InjectDUT
